import Mathlib

/-!
# Verification development for the oc-metrics service

Shallow embedding of the oc-metrics repository (Rust) and proofs about it.

The embedding covers:
* the migration engine (`src/dal/migrator/mod.rs`) together with its sqlite
  applier (`src/dal/migrator/sqlite.rs`), modelled as a pure function over an
  explicit backend state;
* the sqlite storage backend (`src/dal/sqlite.rs`): `write_metric` and
  `read_metrics` over an explicit row store, including a faithful model of the
  SQL `LIKE` pattern match used for metric-name filtering;
* the service layer (`src/server.rs`): `record_metrics` batch processing and
  the limit resolution of `load_metrics`.

Modelling conventions:
* Timestamps are modelled as nanoseconds since the Unix epoch (`Nat`).  The
  code persists timestamps with chrono's `to_rfc3339`, a fixed-timezone
  (`+00:00`) textual form whose lexicographic order and round-trip agree with
  the instant; the SQL comparisons `time > :start` / `time < :stop` on that
  text are therefore modelled by `Nat` comparison on the instant.
* IEEE-754 `f64` payloads are only ever stored and returned, never computed
  on, so they are modelled opaquely by their 64-bit pattern (`Nat`).  The
  `0.0` sentinel written into the unused `dvalue` column maps to `0`.
* The single sqlite connection and its mutex are invisible at this level:
  every modelled operation corresponds to the statements it executes, in
  order, against the shared state.
-/

/-- 64-bit float payloads, modelled by their bit pattern (stored and returned
verbatim, never computed on). -/
abbrev F64 := Nat

/-- UTC instants, modelled as nanoseconds since the Unix epoch. -/
abbrev Time := Nat

section Migrator

/-! ## Migration engine (`src/dal/migrator/mod.rs`, `src/dal/migrator/sqlite.rs`)

The engine is generic over a `RustEmbed` file set `E` and an `Applier`.  We
model the embedded file set as a list of `(name, content)` pairs, where the
content is either valid UTF-8 text or invalid bytes, and the sqlite applier's
backend state as the list of `SchemaMigrations` rows in insertion order.
-/

/-- Content of one embedded migration file: either text that decodes as UTF-8
(`std::str::from_utf8` succeeds) or invalid bytes. -/
inductive FileContent where
  | text (sql : String)
  | invalid
deriving DecidableEq, Repr

/-- The sqlite backend state seen by the migrator: the rows of the
`SchemaMigrations` table, in insertion order.  (`setup` creates the table
with `CREATE TABLE IF NOT EXISTS`, which is a no-op on this state.) -/
structure MigState where
  applied : List String
deriving DecidableEq, Repr

/-- `MigrationError` in the source is a single message string; we keep the
data the message is formatted from.  `consistency a f` is the error
"expected to find applied migration a, but found f"; `storage` covers
sqlite-level failures such as the `SchemaMigrations.name` primary-key
violation raised by `mark_applied` on a duplicate name. -/
inductive MigrationError where
  | consistency (expectedApplied foundFile : String)
  | missingFile (name : String)
  | badEncoding (name : String)
  | storage (msg : String)
deriving DecidableEq, Repr

/-- Outcome of one `migrate` call: the final backend state (marks performed
before a failure persist, per the per-statement locking), the SQL texts passed
to `Applier::apply` in order, and the error if the call failed. -/
structure MigOutcome where
  state : MigState
  applies : List String
  err? : Option MigrationError
deriving DecidableEq, Repr

/-- `E::get(name)`: fetch an embedded file's content by name. -/
def lookupFile (E : List (String × FileContent)) (n : String) : Option FileContent :=
  (E.find? (fun p => p.1 == n)).map Prod.snd

/-- Rust's `str` ordering (byte-wise lexicographic, which on UTF-8 coincides
with code-point lexicographic order on the character lists). -/
def strLe (a b : String) : Prop := a.data ≤ b.data

instance : DecidableRel strLe := fun a b => inferInstanceAs (Decidable (a.data ≤ b.data))

instance : IsTrans String strLe := ⟨fun _ _ _ h1 h2 => le_trans h1 h2⟩

instance : IsTotal String strLe := ⟨fun a b => le_total a.data b.data⟩

instance : IsAntisymm String strLe := ⟨fun a b h1 h2 => by
  cases a; cases b; exact congrArg String.mk (le_antisymm h1 h2)⟩

/-- `E::iter().collect()` followed by `files.sort()`: the available migration
names in byte-wise lexicographic order. -/
def sortedFiles (E : List (String × FileContent)) : List String :=
  (E.map Prod.fst).insertionSort strLe

/-- `applier.applied()` followed by `applied_migrations.sort()`: the recorded
migration names (rows of `SchemaMigrations`), sorted. -/
def sortedApplied (st : MigState) : List String :=
  st.applied.insertionSort strLe

/-- The `while i < files.len()` loop of `migrate`: walk the sorted file list
against the sorted applied-list snapshot.  While the snapshot lasts, names
must match exactly; once it is exhausted, each remaining file is fetched,
decoded, applied, and marked.  `mark_applied` is an `INSERT` into a
primary-key column and fails on a duplicate name (after the `apply` already
ran). -/
def migrateLoop (getFile : String → Option FileContent) :
    List String → List String → MigState → List String → MigOutcome
  | [], _, st, tr => ⟨st, tr, none⟩
  | f :: fs, a :: as, st, tr =>
    if a = f then
      migrateLoop getFile fs as st tr
    else
      ⟨st, tr, some (MigrationError.consistency a f)⟩
  | f :: fs, [], st, tr =>
    match getFile f with
    | none => ⟨st, tr, some (MigrationError.missingFile f)⟩
    | some FileContent.invalid => ⟨st, tr, some (MigrationError.badEncoding f)⟩
    | some (FileContent.text sql) =>
      if f ∈ st.applied then
        ⟨st, tr ++ [sql], some (MigrationError.storage "UNIQUE constraint failed: SchemaMigrations.name")⟩
      else
        migrateLoop getFile fs [] ⟨st.applied ++ [f]⟩ (tr ++ [sql])

/-- `migrate::<E, _>(applier)` from `src/dal/migrator/mod.rs:61-103`, run
against a backend in state `st`: sort the embedded file names, `setup()` (a
no-op on an initialized backend), read and sort the applied list, then run
the loop. -/
def migrate (E : List (String × FileContent)) (st : MigState) : MigOutcome :=
  migrateLoop (lookupFile E) (sortedFiles E) (sortedApplied st) st []

end Migrator

section Storage

/-! ## Storage backend (`src/dal/sqlite.rs`) -/

/-- One row of the `Metrics` table. -/
structure Row where
  name : String
  time : Time
  value_type : String
  dvalue : F64
  tvalue : String
deriving DecidableEq, Repr

/-- The `Metrics` table, in insertion (rowid) order — the order a plain
`SELECT` returns rows in. -/
abbrev Store := List Row

/-- `MetricValue` from `src/dal/mod.rs` (`Double(f64) | String(Cow<str>)`). -/
inductive MetricValue where
  | Double (d : F64)
  | Str (s : String)
deriving DecidableEq, Repr

/-- `Metric` from `src/dal/mod.rs`. -/
structure Metric where
  name : String
  when : Time
  value : MetricValue
deriving DecidableEq, Repr

/-- ASCII lower-casing, as sqlite's default `LIKE` applies to both pattern and
text characters. -/
def asciiLower (c : Char) : Char :=
  if 'A' ≤ c ∧ c ≤ 'Z' then Char.ofNat (c.toNat + 32) else c

/-- Sqlite's default `LIKE` operator on a pattern and a text, both as
character lists: `%` matches any (possibly empty) run — i.e. the rest of the
pattern may resume at any suffix of the text — `_` matches exactly one
character, and ordinary characters compare ASCII-case-insensitively. -/
def likeMatch : List Char → List Char → Bool
  | [], s => s.isEmpty
  | '%' :: ps, s => s.tails.any (fun t => likeMatch ps t)
  | _ :: _, [] => false
  | p :: ps, c :: s => (p == '_' || asciiLower p == asciiLower c) && likeMatch ps s

/-- `write_metric` (`src/dal/sqlite.rs:71-80`): choose the discriminator and
payload columns from the value's variant (the unused payload column gets a
`0.0` / `""` sentinel) and `INSERT` one row. -/
def write_metric (m : Metric) (st : Store) : Store :=
  match m.value with
  | MetricValue.Double d => st ++ [⟨m.name, m.when, "double", d, ""⟩]
  | MetricValue.Str s => st ++ [⟨m.name, m.when, "string", 0, s⟩]

/-- The `WHERE` clause of `read_metrics`: `name LIKE :prefix` with the bound
pattern `format!("{}%", prefix)` (caller wildcards unescaped), plus
`time > :start` / `time < :stop` when the bounds are supplied. -/
def rowMatches (pfx : String) (start stop : Option Time) (r : Row) : Bool :=
  likeMatch (pfx.data ++ ['%']) r.name.data
    && (match start with
        | none => true
        | some a => decide (a < r.time))
    && (match stop with
        | none => true
        | some b => decide (r.time < b))

/-- Row decoding in `read_metrics` (`src/dal/sqlite.rs:116-130`): parse the
time text back, then pick the payload column: `dvalue` as a `Double` exactly
when `value_type == "double"`, otherwise `tvalue` as a `String`. -/
def decodeRow (r : Row) : Metric :=
  { name := r.name
    when := r.time
    value := if r.value_type = "double" then MetricValue.Double r.dvalue
             else MetricValue.Str r.tvalue }

/-- `read_metrics` (`src/dal/sqlite.rs:82-132`): select the rows matching the
`WHERE` clause, in storage order, and decode each. -/
def read_metrics (st : Store) (pfx : String) (start stop : Option Time) : List Metric :=
  (st.filter (rowMatches pfx start stop)).map decodeRow

/-- Modelled from the spec: the `Database::read_metrics` variant that carries
the optional row cap.  The trait in `src/dal/mod.rs` and the sqlite
implementation in `src/dal/sqlite.rs` predate the `limit` parameter that the
call site in `src/server.rs` passes, so the capped variant is missing from
`src/`; per the spec it is `read_metrics` "capped at `limit` rows if
provided". -/
def read_metrics_limit (st : Store) (pfx : String) (start stop : Option Time)
    (limit : Option Nat) : List Metric :=
  match limit with
  | none => read_metrics st pfx start stop
  | some k => (read_metrics st pfx start stop).take k

/-- Modelled from the spec: the `Database::list_metrics` method is missing
from `src/` (only its caller in `src/server.rs` exists).  Per the spec it
"returns, for every distinct name matching `prefix`, that name paired with
the maximum timestamp observed for it"; name matching is the same unescaped
`LIKE` match the read path uses. -/
def list_metrics (st : Store) (pfx : String) : List (String × Time) :=
  let matching := st.filter (fun r => likeMatch (pfx.data ++ ['%']) r.name.data)
  ((matching.map Row.name).dedup).map (fun n =>
    (n, ((matching.filter (fun r => r.name == n)).map Row.time).foldl max 0))

end Storage

section Server

/-! ## Service layer (`src/server.rs`) -/

/-- `prost_types::Timestamp`: `seconds : i64`, `nanos : i32`. -/
structure TsProto where
  seconds : Int
  nanos : Int
deriving DecidableEq, Repr

/-- The proto `metric.value` oneof. -/
inductive PValue where
  | doubleValue (d : F64)
  | stringValue (s : String)
deriving DecidableEq, Repr

/-- One entry of a `RecordMetricsRequest`. -/
structure ProtoMetric where
  identifier : String
  when : Option TsProto
  value : Option PValue
deriving DecidableEq, Repr

/-- The gRPC status the server returns: `Status::unknown` for the missing
value validation error, `Status::internal` for database errors. -/
inductive RpcStatus where
  | unknownStatus (msg : String)
  | internalStatus (msg : String)
deriving DecidableEq, Repr

/-- The validation-error message in `record_metrics`. -/
def noValueMsg : String :=
  "Did you ask for a metric with no value? How very foolish of you!"

/-- `UNIX_EPOCH + Duration::from_secs(w.seconds as u64) +
Duration::from_nanos(w.nanos as u64)`: both fields are cast with `as u64`
(two's-complement wrap, i.e. reduction mod 2^64), then the durations add up
to nanoseconds since the epoch. -/
def protoTime (t : TsProto) : Time :=
  ((t.seconds % (2 ^ 64 : Int)).toNat) * 1000000000 + ((t.nanos % (2 ^ 64 : Int)).toNat)

/-- The `Metric` built for one batch entry inside the `record_metrics` loop:
the caller's timestamp converted via `protoTime` when supplied, otherwise the
batch's single `current_time`; the value from the oneof variant.  (The
`none` value branch is never reached: the loop validates the value before
building the metric; the dummy keeps this total.) -/
def toMetric (now : Time) (m : ProtoMetric) : Metric :=
  { name := m.identifier
    when := match m.when with
      | some w => protoTime w
      | none => now
    value := match m.value with
      | some (PValue.doubleValue d) => MetricValue.Double d
      | some (PValue.stringValue s) => MetricValue.Str s
      | none => MetricValue.Str "" }

/-- `record_metrics` (`src/server.rs:63-85`): `current_time` is captured once
(`now`), then each entry is processed in request order: an entry with no
value aborts the call immediately with `Status::unknown` (earlier writes
stay, later entries are never reached); otherwise the entry is written and
processing continues. -/
def record_metrics (now : Time) : List ProtoMetric → Store → Store × Option RpcStatus
  | [], st => (st, none)
  | m :: rest, st =>
    match m.value with
    | none => (st, some (RpcStatus.unknownStatus noValueMsg))
    | some _ => record_metrics now rest (write_metric (toMetric now m) st)

/-- The limit resolution in `load_metrics` (`src/server.rs:102-108`): a proto
`uint` field reads as `0` when unset, so `max_time_values != 0` uses the
caller's cap and `0` (unset) falls back to `1000`. -/
def resolveLimit (maxTimeValues : Nat) : Nat :=
  if maxTimeValues ≠ 0 then maxTimeValues else 1000

/-- The row set `load_metrics` obtains from the database before grouping:
`read_metrics` with the resolved cap. -/
def load_metrics_rows (st : Store) (pfx : String) (start stop : Option Time)
    (maxTimeValues : Nat) : List Metric :=
  read_metrics_limit st pfx start stop (some (resolveLimit maxTimeValues))

end Server

section MigratorLemmas

/-! ## Lemmas about the migration engine -/

/-- If the sorted applied snapshot extends the sorted file list position by
position (every file name is matched by the record at the same index), the
loop changes nothing and succeeds. -/
theorem migrateLoop_prefix_ok (g : String → Option FileContent) :
    ∀ (fs as : List String) (st : MigState) (tr : List String),
      as.take fs.length = fs → migrateLoop g fs as st tr = ⟨st, tr, none⟩ := by
  intro fs
  induction fs with
  | nil => intro as st tr _; rfl
  | cons f fs ih =>
    intro as st tr htake
    cases as with
    | nil => simp at htake
    | cons a as =>
      simp only [List.length_cons, List.take_succ_cons, List.cons.injEq] at htake
      obtain ⟨rfl, htake⟩ := htake
      simpa only [migrateLoop, if_pos rfl] using ih as st tr htake

/-- A successful run of the apply phase (empty applied snapshot) appends
exactly the processed file names to the backend's record. -/
theorem migrateLoop_apply_ok (g : String → Option FileContent) :
    ∀ (fs : List String) (st : MigState) (tr : List String) (st2 : MigState) (tr2 : List String),
      migrateLoop g fs [] st tr = ⟨st2, tr2, none⟩ → st2.applied = st.applied ++ fs := by
  intro fs
  induction fs with
  | nil =>
    intro st tr st2 tr2 h
    cases h
    simp
  | cons f fs ih =>
    intro st tr st2 tr2 h
    simp only [migrateLoop] at h
    split at h
    · simp at h
    · simp at h
    · split at h
      · simp at h
      · have := ih _ _ _ _ h
        simpa [List.append_assoc] using this

/-- Inversion of a successful loop run: either the applied snapshot covered
every file (pure check, nothing changed), or the files extend the snapshot
and the surplus files were appended to the record. -/
theorem migrateLoop_ok_inv (g : String → Option FileContent) :
    ∀ (fs as : List String) (st : MigState) (tr : List String) (st2 : MigState) (tr2 : List String),
      migrateLoop g fs as st tr = ⟨st2, tr2, none⟩ →
      (fs.length ≤ as.length ∧ as.take fs.length = fs ∧ st2 = st ∧ tr2 = tr) ∨
      (as.length < fs.length ∧ fs.take as.length = as ∧
        st2.applied = st.applied ++ fs.drop as.length) := by
  intro fs
  induction fs with
  | nil =>
    intro as st tr st2 tr2 h
    cases h
    exact Or.inl ⟨Nat.zero_le _, by simp, rfl, rfl⟩
  | cons f fs ih =>
    intro as st tr st2 tr2 h
    cases as with
    | nil =>
      refine Or.inr ⟨Nat.succ_pos _, by simp, ?_⟩
      simpa using migrateLoop_apply_ok g (f :: fs) st tr st2 tr2 h
    | cons a as =>
      simp only [migrateLoop] at h
      by_cases haf : a = f
      · rw [if_pos haf] at h
        rcases ih as st tr st2 tr2 h with ⟨hlen, htake, hst, htr⟩ | ⟨hlen, htake, happ⟩
        · exact Or.inl ⟨Nat.succ_le_succ hlen, by simp [htake, haf], hst, htr⟩
        · exact Or.inr ⟨Nat.succ_lt_succ hlen, by simp [htake, haf], by simpa using happ⟩
      · rw [if_neg haf] at h
        cases h

/-- Hitting the first divergence between the applied snapshot and the file
list: the loop stops with a consistency error naming the recorded name and
the file name, performing no applies and leaving the state untouched. -/
theorem migrateLoop_consistency (g : String → Option FileContent) :
    ∀ (p : List String) (a f : String) (as2 fs2 : List String) (st : MigState) (tr : List String),
      a ≠ f →
      migrateLoop g (p ++ f :: fs2) (p ++ a :: as2) st tr =
        ⟨st, tr, some (MigrationError.consistency a f)⟩ := by
  intro p
  induction p with
  | nil =>
    intro a f as2 fs2 st tr hne
    simp only [List.nil_append, migrateLoop, if_neg hne]
  | cons c p ih =>
    intro a f as2 fs2 st tr hne
    simpa only [List.cons_append, migrateLoop, if_pos rfl] using ih a f as2 fs2 st tr hne

/-- From any divergent position within both sorted lists, extract the first
divergent position: the two lists agree strictly before it. -/
theorem exists_first_mismatch (A F : List String) (i : Nat) (h1 : i < F.length)
    (h2 : i < A.length) (hne : A.get ⟨i, h2⟩ ≠ F.get ⟨i, h1⟩) :
    ∃ j, j ≤ i ∧ ∃ (g1 : j < F.length) (g2 : j < A.length),
      A.get ⟨j, g2⟩ ≠ F.get ⟨j, g1⟩ ∧ A.take j = F.take j := by
  classical
  have hPi : A.get? i ≠ F.get? i ∧ i < F.length ∧ i < A.length := by
    refine ⟨?_, h1, h2⟩
    rw [List.get?_eq_get h2, List.get?_eq_get h1]
    simpa using hne
  let P : Nat → Prop := fun j => A.get? j ≠ F.get? j ∧ j < F.length ∧ j < A.length
  have hex : ∃ j, P j := ⟨i, hPi⟩
  refine ⟨Nat.find hex, Nat.find_min' hex hPi, ?_⟩
  obtain ⟨hne', g1, g2⟩ := Nat.find_spec hex
  refine ⟨g1, g2, ?_, ?_⟩
  · rw [List.get?_eq_get g2, List.get?_eq_get g1] at hne'
    simpa using hne'
  · apply List.ext_get?
    intro k
    by_cases hk : k < Nat.find hex
    · rw [List.get?_take hk, List.get?_take hk]
      have hnk := Nat.find_min hex hk
      have hkF : k < F.length := lt_trans (lt_of_lt_of_le hk (Nat.find_min' hex hPi)) h1
      have hkA : k < A.length := lt_trans (lt_of_lt_of_le hk (Nat.find_min' hex hPi)) h2
      by_contra hns
      exact hnk ⟨hns, hkF, hkA⟩
    · push_neg at hk
      rw [List.get?_eq_none.mpr, List.get?_eq_none.mpr]
      · exact le_trans (by simpa using Nat.le_of_lt_succ (Nat.lt_succ_of_le (List.length_take_le _ _))) hk
      · exact le_trans (List.length_take_le _ _) hk

/-- Shared consequence of a divergence within both sorted lists: `migrate`
stops at the first divergent position with a consistency error carrying that
position's recorded name and file name, no applies, and an unchanged state. -/
theorem migrate_stops_at_first_mismatch (E : List (String × FileContent)) (st : MigState)
    (i : Nat) (h1 : i < (sortedFiles E).length) (h2 : i < (sortedApplied st).length)
    (hne : (sortedApplied st).get ⟨i, h2⟩ ≠ (sortedFiles E).get ⟨i, h1⟩) :
    ∃ j, j ≤ i ∧ ∃ (g1 : j < (sortedFiles E).length) (g2 : j < (sortedApplied st).length),
      (sortedApplied st).get ⟨j, g2⟩ ≠ (sortedFiles E).get ⟨j, g1⟩ ∧
      migrate E st = ⟨st, [], some (MigrationError.consistency
        ((sortedApplied st).get ⟨j, g2⟩) ((sortedFiles E).get ⟨j, g1⟩))⟩ := by
  obtain ⟨j, hji, g1, g2, hne', htake⟩ :=
    exists_first_mismatch (sortedApplied st) (sortedFiles E) i h1 h2 hne
  refine ⟨j, hji, g1, g2, hne', ?_⟩
  have key := migrateLoop_consistency (lookupFile E) ((sortedFiles E).take j)
    ((sortedApplied st).get ⟨j, g2⟩) ((sortedFiles E).get ⟨j, g1⟩)
    ((sortedApplied st).drop (j + 1)) ((sortedFiles E).drop (j + 1)) st [] hne'
  have hF : (sortedFiles E).take j ++
      (sortedFiles E).get ⟨j, g1⟩ :: (sortedFiles E).drop (j + 1) = sortedFiles E := by
    rw [List.get_cons_drop, List.take_append_drop]
  have hA : (sortedFiles E).take j ++
      (sortedApplied st).get ⟨j, g2⟩ :: (sortedApplied st).drop (j + 1) = sortedApplied st := by
    rw [← htake, List.get_cons_drop, List.take_append_drop]
  rw [hF, hA] at key
  exact key

end MigratorLemmas

section MigratorClaims

/-- **C1**: for every backend state in which `migrate` has just succeeded
with a given available migration set, calling `migrate` again with the same
set performs zero additional `apply` calls (no schema changes) and returns
success (and leaves the state unchanged). -/
theorem migrate_idempotent (E : List (String × FileContent)) (st st2 : MigState)
    (tr : List String) (h : migrate E st = ⟨st2, tr, none⟩) :
    migrate E st2 = ⟨st2, [], none⟩ := by
  rcases migrateLoop_ok_inv (lookupFile E) (sortedFiles E) (sortedApplied st) st [] st2 tr h with
    ⟨_, htake, hst, _⟩ | ⟨_, htake, happ⟩
  · subst hst
    exact migrateLoop_prefix_ok _ _ _ _ _ htake
  · have hperm : st2.applied.Perm (sortedFiles E) := by
      rw [happ]
      conv_rhs => rw [← List.take_append_drop (sortedApplied st).length (sortedFiles E)]
      rw [htake]
      exact List.Perm.append_right _ (List.perm_insertionSort strLe st.applied).symm
    have hsorted : sortedApplied st2 = sortedFiles E := by
      refine List.eq_of_perm_of_sorted (r := strLe)
        ((List.perm_insertionSort strLe st2.applied).trans hperm) ?_ ?_
      · exact List.sorted_insertionSort strLe st2.applied
      · exact List.sorted_insertionSort strLe (E.map Prod.fst)
    show migrateLoop (lookupFile E) (sortedFiles E) (sortedApplied st2) st2 [] = _
    rw [hsorted]
    exact migrateLoop_prefix_ok _ _ _ _ _ (List.take_length _)

/-- Witness for **C1** at a concrete input: migrating twice from an empty
backend with two migration files (embedded out of order). -/
theorem migrate_idempotent_witness :
    migrate [("0002_b", FileContent.text "B"), ("0001_a", FileContent.text "A")]
        ⟨["0001_a", "0002_b"]⟩ = ⟨⟨["0001_a", "0002_b"]⟩, [], none⟩ :=
  migrate_idempotent _ ⟨[]⟩ _ ["A", "B"] (by decide)

/-- **C2, counterexample**: a backend that records strictly more migrations
than are available — the trailing already-applied file `0002_b` was removed —
is not a strict ordered prefix of the available set, yet the next `migrate`
reports success (with zero applies) instead of the error the claim requires. -/
theorem migrate_removed_trailing_cx :
    ¬ (sortedApplied ⟨["0001_a", "0002_b"]⟩ <+:
        sortedFiles [("0001_a", FileContent.text "A")]) ∧
    migrate [("0001_a", FileContent.text "A")] ⟨["0001_a", "0002_b"]⟩ =
      ⟨⟨["0001_a", "0002_b"]⟩, [], none⟩ := by
  decide

/-- **C2 (amended)**: whenever the sorted recorded names and the sorted
available names differ at a position lying within both lists, the next
`migrate` call fails with an error and does not report success.  (Surplus
recorded names beyond the end of the available list do not by themselves
cause a failure — see the counterexample.) -/
theorem migrate_mismatch_fails (E : List (String × FileContent)) (st : MigState)
    (i : Nat) (h1 : i < (sortedFiles E).length) (h2 : i < (sortedApplied st).length)
    (hne : (sortedApplied st).get ⟨i, h2⟩ ≠ (sortedFiles E).get ⟨i, h1⟩) :
    (migrate E st).err?.isSome = true := by
  obtain ⟨j, _, g1, g2, _, heq⟩ := migrate_stops_at_first_mismatch E st i h1 h2 hne
  rw [heq]
  rfl

/-- Witness for **C2 (amended)**: two available files, the second recorded
name diverges. -/
theorem migrate_mismatch_fails_witness :
    (migrate [("0001_a", FileContent.text "A"), ("0002_b", FileContent.text "B")]
      ⟨["0001_a", "0002_x"]⟩).err?.isSome = true :=
  migrate_mismatch_fails _ _ 1 (by decide) (by decide) (by decide)

/-- **C3**: if the sorted applied list and the sorted available list differ
at a position `i` within both, `migrate` returns a consistency error naming
both the recorded and the available name (at the first divergent position
`j ≤ i`, where it stops) and applies no migration at position `i` or later —
indeed it applies nothing at all. -/
theorem migrate_consistency_error (E : List (String × FileContent)) (st : MigState)
    (i : Nat) (h1 : i < (sortedFiles E).length) (h2 : i < (sortedApplied st).length)
    (hne : (sortedApplied st).get ⟨i, h2⟩ ≠ (sortedFiles E).get ⟨i, h1⟩) :
    ∃ j, j ≤ i ∧ ∃ (g1 : j < (sortedFiles E).length) (g2 : j < (sortedApplied st).length),
      (sortedApplied st).get ⟨j, g2⟩ ≠ (sortedFiles E).get ⟨j, g1⟩ ∧
      (migrate E st).err? = some (MigrationError.consistency
        ((sortedApplied st).get ⟨j, g2⟩) ((sortedFiles E).get ⟨j, g1⟩)) ∧
      (migrate E st).applies = [] := by
  obtain ⟨j, hji, g1, g2, hne', heq⟩ := migrate_stops_at_first_mismatch E st i h1 h2 hne
  exact ⟨j, hji, g1, g2, hne', by rw [heq], by rw [heq]⟩

/-- Witness for **C3**: one available file, one diverging recorded name. -/
theorem migrate_consistency_error_witness :
    ∃ j, j ≤ 0 ∧ ∃ (g1 : j < (sortedFiles [("0001_a", FileContent.text "A")]).length)
      (g2 : j < (sortedApplied ⟨["0001_z"]⟩).length),
      (sortedApplied ⟨["0001_z"]⟩).get ⟨j, g2⟩ ≠
        (sortedFiles [("0001_a", FileContent.text "A")]).get ⟨j, g1⟩ ∧
      (migrate [("0001_a", FileContent.text "A")] ⟨["0001_z"]⟩).err? =
        some (MigrationError.consistency
          ((sortedApplied ⟨["0001_z"]⟩).get ⟨j, g2⟩)
          ((sortedFiles [("0001_a", FileContent.text "A")]).get ⟨j, g1⟩)) ∧
      (migrate [("0001_a", FileContent.text "A")] ⟨["0001_z"]⟩).applies = [] :=
  migrate_consistency_error _ _ 0 (by decide) (by decide) (by decide)

end MigratorClaims

section StorageLemmas

/-! ## Lemmas about the storage backend -/

theorem likeMatch_pct (ps : List Char) (s : List Char) :
    likeMatch ('%' :: ps) s = s.tails.any (fun t => likeMatch ps t) := by
  rw [likeMatch.eq_def]
  split
  · simp_all
  · rename_i heq
    injection heq with h1 h2
    subst h2
    rfl
  · rename_i hne heq
    injection heq with h1 h2
    exact absurd h1.symm hne
  · rename_i hne heq
    injection heq with h1 h2
    exact absurd h1.symm hne

theorem likeMatch_cons_nil (p : Char) (ps : List Char) (hp : p ≠ '%') :
    likeMatch (p :: ps) [] = false := by
  rw [likeMatch.eq_def]
  split <;> simp_all

theorem likeMatch_cons_cons (p : Char) (ps : List Char) (c : Char) (s : List Char)
    (hp : p ≠ '%') :
    likeMatch (p :: ps) (c :: s) =
      ((p == '_' || asciiLower p == asciiLower c) && likeMatch ps s) := by
  rw [likeMatch.eq_def]
  split <;> simp_all

/-- Any text of the form `s ++ t` matches the pattern `s ++ "%"` — in
particular a stored name always matches the pattern built from itself as the
query value. -/
theorem likeMatch_self_pct : ∀ (s t : List Char), likeMatch (s ++ ['%']) (s ++ t) = true := by
  intro s
  induction s with
  | nil =>
    intro t
    rw [List.nil_append, List.nil_append, likeMatch_pct, List.any_eq_true]
    refine ⟨[], ?_, rfl⟩
    rw [List.mem_tails]
    exact List.nil_suffix
  | cons c s ih =>
    intro t
    by_cases hc : c = '%'
    · subst hc
      rw [List.cons_append, List.cons_append, likeMatch_pct, List.any_eq_true]
      refine ⟨s ++ t, ?_, ih t⟩
      simp only [List.mem_tails]
      exact List.suffix_cons '%' (s ++ t)
    · rw [List.cons_append, List.cons_append, likeMatch_cons_cons _ _ _ _ hc]
      simp [ih t]

/-- For a pattern value free of `LIKE` metacharacters, and with both sides
ASCII-case-normalized, the unescaped `LIKE` query-match coincides with plain
list-prefix matching. -/
theorem likeMatch_plain : ∀ (p s : List Char),
    (∀ c ∈ p, c ≠ '%' ∧ c ≠ '_' ∧ asciiLower c = c) →
    (∀ c ∈ s, asciiLower c = c) →
    (likeMatch (p ++ ['%']) s = true ↔ p <+: s) := by
  intro p
  induction p with
  | nil =>
    intro s _ _
    simp only [List.nil_append, likeMatch_pct, List.any_eq_true]
    constructor
    · intro _
      exact List.nil_prefix
    · intro _
      refine ⟨[], ?_, rfl⟩
      rw [List.mem_tails]
      exact List.nil_suffix
  | cons c p ih =>
    intro s hp hs
    obtain ⟨hc1, hc2, hc3⟩ := hp c (List.mem_cons_self c p)
    cases s with
    | nil =>
      rw [List.cons_append, likeMatch_cons_nil _ _ hc1]
      simp
    | cons d s =>
      rw [List.cons_append, likeMatch_cons_cons _ _ _ _ hc1]
      have hd : asciiLower d = d := hs d (List.mem_cons_self d s)
      have hrest : ∀ x ∈ s, asciiLower x = x := fun x hx => hs x (List.mem_cons_of_mem d hx)
      have hprest : ∀ x ∈ p, x ≠ '%' ∧ x ≠ '_' ∧ asciiLower x = x :=
        fun x hx => hp x (List.mem_cons_of_mem c hx)
      rw [List.cons_prefix_cons, Bool.and_eq_true, Bool.or_eq_true]
      simp only [beq_iff_eq, hc3, hd]
      constructor
      · rintro ⟨hcd | hcd, hm⟩
        · exact absurd hcd hc2
        · exact ⟨hcd, (ih s hprest hrest).mp hm⟩
      · rintro ⟨hcd, hpre⟩
        exact ⟨Or.inr hcd, (ih s hprest hrest).mpr hpre⟩

end StorageLemmas

section StorageClaims

/-- **C6**: writing a metric and then reading with its exact name as the
query value and no time bounds returns — after whatever the same query
returned before the write — exactly the written metric: identical name,
timestamp (at the model's persisted precision), and value, for both the
double and the string variant. -/
theorem write_read_roundtrip (st : Store) (m : Metric) :
    read_metrics (write_metric m st) m.name none none =
      read_metrics st m.name none none ++ [m] := by
  obtain ⟨n, w, v⟩ := m
  have hself : likeMatch (n.data ++ ['%']) n.data = true := by
    have := likeMatch_self_pct n.data []
    rwa [List.append_nil] at this
  cases v with
  | Double d =>
    simp [read_metrics, write_metric, List.filter_append, rowMatches, hself, decodeRow]
  | Str s =>
    simp [read_metrics, write_metric, List.filter_append, rowMatches, hself, decodeRow]

/-- **C7, counterexample**: with an unescaped `LIKE` pattern, a query value
containing the wildcard `%` returns a row whose name does not begin with the
query value, refuting the claimed iff for arbitrary query values. -/
theorem read_metrics_wildcard_cx :
    read_metrics [⟨"abc", 5, "double", 0, ""⟩] "%" (some 0) (some 10) =
      [⟨"abc", 5, MetricValue.Double 0⟩] ∧
    ¬ ("%".data <+: "abc".data) := by
  decide

/-- **C7 (amended)**: for query values free of the (unescaped) `LIKE`
wildcards `%` and `_`, and up to `LIKE`'s ASCII case-insensitivity (here:
query value and stored names case-normalized), a row is returned by
`read_metrics` with both bounds given iff its name begins with the query
value and its timestamp is strictly between the bounds; the rows come back
decoded in storage order. -/
theorem read_metrics_exclusive_bounds (st : Store) (q : String) (a b : Time)
    (hq : ∀ c ∈ q.data, c ≠ '%' ∧ c ≠ '_' ∧ asciiLower c = c)
    (hnames : ∀ r ∈ st, ∀ c ∈ r.name.data, asciiLower c = c) :
    read_metrics st q (some a) (some b) =
      (st.filter (fun r =>
        decide (q.data <+: r.name.data) && decide (a < r.time) && decide (r.time < b))).map
        decodeRow := by
  unfold read_metrics
  congr 1
  apply List.filter_congr
  intro r hr
  have hlike : likeMatch (q.data ++ ['%']) r.name.data = decide (q.data <+: r.name.data) := by
    rw [Bool.eq_iff_iff]
    simp only [decide_eq_true_eq]
    exact likeMatch_plain q.data r.name.data hq (hnames r hr)
  simp [rowMatches, hlike]

/-- Witness for **C7 (amended)**, instantiating the spec's example: three
points at increasing times under one name; the query with the outer times as
bounds returns exactly the middle point. -/
theorem read_metrics_exclusive_bounds_witness :
    (read_metrics
        [⟨"svc.cpu", 100, "double", 23, ""⟩, ⟨"svc.cpu", 200, "double", 23, ""⟩,
          ⟨"svc.cpu", 300, "double", 23, ""⟩] "svc.cpu" (some 100) (some 300) =
      ([⟨"svc.cpu", 100, "double", 23, ""⟩, ⟨"svc.cpu", 200, "double", 23, ""⟩,
          ⟨"svc.cpu", 300, "double", 23, ""⟩].filter (fun r =>
        decide ("svc.cpu".data <+: r.name.data) && decide (100 < r.time) &&
          decide (r.time < 300))).map decodeRow) ∧
    read_metrics
        [⟨"svc.cpu", 100, "double", 23, ""⟩, ⟨"svc.cpu", 200, "double", 23, ""⟩,
          ⟨"svc.cpu", 300, "double", 23, ""⟩] "svc.cpu" (some 100) (some 300) =
      [⟨"svc.cpu", 200, MetricValue.Double 23⟩] :=
  ⟨read_metrics_exclusive_bounds _ "svc.cpu" 100 300 (by decide) (by decide), by decide⟩

/-- **C10**: a stored row that the query matches is decoded into the result
with its value taken as a `Double` from the `dvalue` column exactly when its
`value_type` column equals `"double"`; any other discriminator value —
including unknown or corrupt ones — yields a `String` value taken from the
`tvalue` column. -/
theorem read_metrics_value_decoding (st : Store) (q : String) (a b : Option Time) (r : Row)
    (hr : r ∈ st) (hm : rowMatches q a b r = true) :
    decodeRow r ∈ read_metrics st q a b ∧
    ((decodeRow r).value = MetricValue.Double r.dvalue ↔ r.value_type = "double") ∧
    (r.value_type ≠ "double" → (decodeRow r).value = MetricValue.Str r.tvalue) := by
  refine ⟨?_, ?_, ?_⟩
  · exact List.mem_map_of_mem decodeRow (List.mem_filter.mpr ⟨hr, hm⟩)
  · constructor
    · intro hv
      by_contra hne
      simp [decodeRow, hne] at hv
    · intro ht
      simp [decodeRow, ht]
  · intro hne
    simp [decodeRow, hne]

/-- Witness for **C10** on a store holding a double row and a row with a
corrupt discriminator. -/
theorem read_metrics_value_decoding_witness :
    decodeRow ⟨"b.row", 2, "corrupt", 7, "x"⟩ ∈
      read_metrics [⟨"a.row", 1, "double", 42, ""⟩, ⟨"b.row", 2, "corrupt", 7, "x"⟩] "" none none ∧
    ((decodeRow ⟨"b.row", 2, "corrupt", 7, "x"⟩).value =
        MetricValue.Double (7 : F64) ↔ ("corrupt" : String) = "double") ∧
    (("corrupt" : String) ≠ "double" →
      (decodeRow ⟨"b.row", 2, "corrupt", 7, "x"⟩).value = MetricValue.Str "x") :=
  read_metrics_value_decoding
    [⟨"a.row", 1, "double", 42, ""⟩, ⟨"b.row", 2, "corrupt", 7, "x"⟩] "" none none
    ⟨"b.row", 2, "corrupt", 7, "x"⟩ (by decide) (by decide)

/-- **C4**: a `read_metrics` call that supplies a row cap returns at most
that many rows, and a `Load` request that specifies no result cap (the proto
field reads `0`) resolves to a cap of `1000` rows. -/
theorem read_metrics_limit_cap (st : Store) (q : String) (a b : Option Time) (k : Nat) :
    (read_metrics_limit st q a b (some k)).length ≤ k ∧
    load_metrics_rows st q a b 0 = read_metrics_limit st q a b (some 1000) := by
  constructor
  · simpa [read_metrics_limit] using List.length_take_le k (read_metrics st q a b)
  · rfl

theorem foldl_max_init_le (l : List Nat) : ∀ a : Nat, a ≤ l.foldl max a := by
  induction l with
  | nil => intro a; exact le_refl a
  | cons y l ih =>
    intro a
    rw [List.foldl_cons]
    exact le_trans (le_max_left a y) (ih (max a y))

theorem le_foldl_max (l : List Nat) : ∀ (a x : Nat), x ∈ l → x ≤ l.foldl max a := by
  induction l with
  | nil => intro a x hx; cases hx
  | cons y l ih =>
    intro a x hx
    rw [List.foldl_cons]
    rcases List.mem_cons.mp hx with rfl | hx
    · exact le_trans (le_max_right a x) (foldl_max_init_le l (max a x))
    · exact ih (max a y) x hx

theorem foldl_max_mem_or_init (l : List Nat) : ∀ a : Nat, l.foldl max a = a ∨ l.foldl max a ∈ l := by
  induction l with
  | nil => intro a; exact Or.inl rfl
  | cons y l ih =>
    intro a
    rw [List.foldl_cons]
    rcases ih (max a y) with h | h
    · rcases max_choice a y with hm | hm
      · exact Or.inl (h.trans hm)
      · exact Or.inr (by rw [h, hm]; exact List.mem_cons_self y l)
    · exact Or.inr (List.mem_cons_of_mem y h)

/-- **C5**: `list_metrics` returns exactly one entry per distinct stored
metric name matching the query value (the name list is duplicate-free, and a
name appears iff some matching row carries it), and each entry is paired
with the maximum timestamp stored for that name (it is a stored timestamp of
that name and bounds every stored timestamp of that name). -/
theorem list_metrics_spec (st : Store) (q : String) :
    ((list_metrics st q).map Prod.fst).Nodup ∧
    (∀ n : String, (∃ t, (n, t) ∈ list_metrics st q) ↔
      ∃ r ∈ st, likeMatch (q.data ++ ['%']) r.name.data = true ∧ r.name = n) ∧
    (∀ n t, (n, t) ∈ list_metrics st q →
      (∃ r ∈ st, likeMatch (q.data ++ ['%']) r.name.data = true ∧ r.name = n ∧ r.time = t) ∧
      (∀ r ∈ st, likeMatch (q.data ++ ['%']) r.name.data = true → r.name = n → r.time ≤ t)) := by
  unfold list_metrics
  set M := st.filter (fun r => likeMatch (q.data ++ ['%']) r.name.data) with hM
  refine ⟨?_, ?_, ?_⟩
  · simp only [List.map_map]
    have : (Prod.fst ∘ fun n =>
        (n, ((M.filter (fun r => r.name == n)).map Row.time).foldl max 0)) = id := by
      funext n
      rfl
    rw [this, List.map_id]
    exact List.nodup_dedup _
  · intro n
    constructor
    · rintro ⟨t, ht⟩
      obtain ⟨n', hn', heq⟩ := List.mem_map.mp ht
      obtain ⟨rfl, -⟩ := Prod.mk.injEq .. ▸ And.intro (congrArg Prod.fst heq) (congrArg Prod.snd heq)
      obtain ⟨r, hrM, hrname⟩ := List.mem_map.mp (List.mem_dedup.mp hn')
      obtain ⟨hrst, hrlike⟩ := List.mem_filter.mp hrM
      exact ⟨r, hrst, hrlike, hrname⟩
    · rintro ⟨r, hrst, hrlike, hrname⟩
      have hrM : r ∈ M := List.mem_filter.mpr ⟨hrst, hrlike⟩
      have hn : n ∈ (M.map Row.name).dedup :=
        List.mem_dedup.mpr (List.mem_map.mpr ⟨r, hrM, hrname⟩)
      exact ⟨_, List.mem_map.mpr ⟨n, hn, rfl⟩⟩
  · intro n t ht
    obtain ⟨n', hn', heq⟩ := List.mem_map.mp ht
    have hfst : n' = n := congrArg Prod.fst heq
    subst hfst
    have htval : ((M.filter (fun r => r.name == n')).map Row.time).foldl max 0 = t :=
      congrArg Prod.snd heq
    obtain ⟨r0, hr0M, hr0name⟩ := List.mem_map.mp (List.mem_dedup.mp hn')
    have hbound : ∀ r ∈ st, likeMatch (q.data ++ ['%']) r.name.data = true →
        r.name = n' → r.time ≤ t := by
      intro r hrst hrlike hrname
      have hrM : r ∈ M := List.mem_filter.mpr ⟨hrst, hrlike⟩
      have hrF : r ∈ M.filter (fun r => r.name == n') :=
        List.mem_filter.mpr ⟨hrM, by simp [hrname]⟩
      have : r.time ∈ (M.filter (fun r => r.name == n')).map Row.time :=
        List.mem_map.mpr ⟨r, hrF, rfl⟩
      rw [← htval]
      exact le_foldl_max _ 0 r.time this
    refine ⟨?_, hbound⟩
    rcases foldl_max_mem_or_init ((M.filter (fun r => r.name == n')).map Row.time) 0 with
      hzero | hmem
    · -- the max folded to the initial 0: every stored time for this name is 0
      obtain ⟨hr0st, hr0like⟩ := List.mem_filter.mp hr0M
      refine ⟨r0, hr0st, hr0like, hr0name, ?_⟩
      have h1 : r0.time ≤ t := hbound r0 hr0st hr0like hr0name
      have h2 : t = 0 := by rw [← htval, hzero]
      exact le_antisymm h1 (h2 ▸ Nat.zero_le _)
    · rw [htval] at hmem
      obtain ⟨r1, hr1F, hr1time⟩ := List.mem_map.mp hmem
      obtain ⟨hr1M, hr1name⟩ := List.mem_filter.mp hr1F
      obtain ⟨hr1st, hr1like⟩ := List.mem_filter.mp hr1M
      exact ⟨r1, hr1st, hr1like, by simpa using hr1name, hr1time⟩

/-- Witness for **C5** on a concrete store: two rows under `"svc.cpu"`, one
non-matching row; exactly one entry, carrying the larger timestamp. -/
theorem list_metrics_spec_witness :
    (((list_metrics
        [⟨"svc.cpu", 100, "double", 23, ""⟩, ⟨"svc.cpu", 300, "double", 24, ""⟩,
          ⟨"other", 50, "string", 0, "hi"⟩] "svc.").map Prod.fst).Nodup ∧
      (∀ n : String, (∃ t, (n, t) ∈ list_metrics
          [⟨"svc.cpu", 100, "double", 23, ""⟩, ⟨"svc.cpu", 300, "double", 24, ""⟩,
            ⟨"other", 50, "string", 0, "hi"⟩] "svc.") ↔
        ∃ r ∈ [⟨"svc.cpu", 100, "double", 23, ""⟩, ⟨"svc.cpu", 300, "double", 24, ""⟩,
            (⟨"other", 50, "string", 0, "hi"⟩ : Row)],
          likeMatch ("svc.".data ++ ['%']) r.name.data = true ∧ r.name = n) ∧
      (∀ n t, (n, t) ∈ list_metrics
          [⟨"svc.cpu", 100, "double", 23, ""⟩, ⟨"svc.cpu", 300, "double", 24, ""⟩,
            ⟨"other", 50, "string", 0, "hi"⟩] "svc." →
        (∃ r ∈ [⟨"svc.cpu", 100, "double", 23, ""⟩, ⟨"svc.cpu", 300, "double", 24, ""⟩,
            (⟨"other", 50, "string", 0, "hi"⟩ : Row)],
          likeMatch ("svc.".data ++ ['%']) r.name.data = true ∧ r.name = n ∧ r.time = t) ∧
        (∀ r ∈ [⟨"svc.cpu", 100, "double", 23, ""⟩, ⟨"svc.cpu", 300, "double", 24, ""⟩,
            (⟨"other", 50, "string", 0, "hi"⟩ : Row)],
          likeMatch ("svc.".data ++ ['%']) r.name.data = true → r.name = n → r.time ≤ t))) ∧
    list_metrics
        [⟨"svc.cpu", 100, "double", 23, ""⟩, ⟨"svc.cpu", 300, "double", 24, ""⟩,
          ⟨"other", 50, "string", 0, "hi"⟩] "svc." = [("svc.cpu", 300)] :=
  ⟨list_metrics_spec _ "svc.", by decide⟩

end StorageClaims

section ServerClaims

/-- **C8**: a record batch whose first value-less entry is `bad` fails with
the validation error at that entry: every entry before it has been written,
in request order, and stays written (no rollback); `bad` itself and every
entry after it are not written. -/
theorem record_metrics_partial_write (now : Time) (pre : List ProtoMetric)
    (bad : ProtoMetric) (post : List ProtoMetric) (st : Store)
    (hpre : ∀ m ∈ pre, m.value.isSome) (hbad : bad.value = none) :
    record_metrics now (pre ++ bad :: post) st =
      (pre.foldl (fun s m => write_metric (toMetric now m) s) st,
        some (RpcStatus.unknownStatus noValueMsg)) := by
  induction pre generalizing st with
  | nil =>
    rw [List.nil_append, List.foldl_nil]
    show record_metrics now (bad :: post) st = _
    rw [record_metrics, hbad]
  | cons m pre ih =>
    have hm : m.value.isSome := hpre m (List.mem_cons_self m pre)
    obtain ⟨v, hv⟩ := Option.isSome_iff_exists.mp hm
    rw [List.cons_append, List.foldl_cons]
    show record_metrics now (m :: (pre ++ bad :: post)) st = _
    rw [record_metrics, hv]
    exact ih _ (fun x hx => hpre x (List.mem_cons_of_mem m hx))

/-- Witness for **C8**: one good entry, one value-less entry, one trailing
entry; only the first row is written, the call errors. -/
theorem record_metrics_partial_write_witness :
    record_metrics 50
        [⟨"cpu", none, some (PValue.doubleValue 1)⟩, ⟨"bad", none, none⟩,
          ⟨"late", none, some (PValue.stringValue "x")⟩] [] =
      ([⟨"cpu", none, some (PValue.doubleValue 1)⟩].foldl
          (fun s m => write_metric (toMetric 50 m) s) [],
        some (RpcStatus.unknownStatus noValueMsg)) :=
  record_metrics_partial_write 50 [⟨"cpu", none, some (PValue.doubleValue 1)⟩]
    ⟨"bad", none, none⟩ [⟨"late", none, some (PValue.stringValue "x")⟩] []
    (by decide) (by decide)

/-- **C9**: in a batch whose entries all carry a value, every entry is
written in order; the entries that omit a timestamp are all written with the
identical single `now` captured once at the start of the batch (never
per-entry clock reads), while entries supplying a timestamp keep their own
converted value. -/
theorem record_metrics_shared_now (now : Time) (batch : List ProtoMetric) (st : Store)
    (h : ∀ m ∈ batch, m.value.isSome) :
    record_metrics now batch st =
      (batch.foldl (fun s m => write_metric (toMetric now m) s) st, none) ∧
    (∀ m ∈ batch, m.when = none → (toMetric now m).when = now) ∧
    (∀ m ∈ batch, ∀ w, m.when = some w → (toMetric now m).when = protoTime w) := by
  refine ⟨?_, ?_, ?_⟩
  · induction batch generalizing st with
    | nil => rfl
    | cons m rest ih =>
      have hm : m.value.isSome := h m (List.mem_cons_self m rest)
      obtain ⟨v, hv⟩ := Option.isSome_iff_exists.mp hm
      rw [List.foldl_cons]
      show record_metrics now (m :: rest) st = _
      rw [record_metrics, hv]
      exact ih _ (fun x hx => h x (List.mem_cons_of_mem m hx))
  · intro m _ hw
    simp [toMetric, hw]
  · intro m _ w hw
    simp [toMetric, hw]

/-- Witness for **C9**: two entries omitting their timestamps are both
written with the one `now` value (`777`), and an entry with an explicit
timestamp keeps it. -/
theorem record_metrics_shared_now_witness :
    (record_metrics 777
        [⟨"m1", none, some (PValue.doubleValue 1)⟩, ⟨"m2", none, some (PValue.stringValue "v")⟩,
          ⟨"m3", some ⟨5, 2⟩, some (PValue.doubleValue 3)⟩] [] =
      ([⟨"m1", none, some (PValue.doubleValue 1)⟩, ⟨"m2", none, some (PValue.stringValue "v")⟩,
          ⟨"m3", some ⟨5, 2⟩, some (PValue.doubleValue 3)⟩].foldl
          (fun s m => write_metric (toMetric 777 m) s) [], none) ∧
      (∀ m ∈ [⟨"m1", none, some (PValue.doubleValue 1)⟩,
          ⟨"m2", none, some (PValue.stringValue "v")⟩,
          (⟨"m3", some ⟨5, 2⟩, some (PValue.doubleValue 3)⟩ : ProtoMetric)],
        m.when = none → (toMetric 777 m).when = 777) ∧
      (∀ m ∈ [⟨"m1", none, some (PValue.doubleValue 1)⟩,
          ⟨"m2", none, some (PValue.stringValue "v")⟩,
          (⟨"m3", some ⟨5, 2⟩, some (PValue.doubleValue 3)⟩ : ProtoMetric)],
        ∀ w, m.when = some w → (toMetric 777 m).when = protoTime w)) ∧
    record_metrics 777
        [⟨"m1", none, some (PValue.doubleValue 1)⟩, ⟨"m2", none, some (PValue.stringValue "v")⟩,
          ⟨"m3", some ⟨5, 2⟩, some (PValue.doubleValue 3)⟩] [] =
      ([⟨"m1", 777, "double", 1, ""⟩, ⟨"m2", 777, "string", 0, "v"⟩,
          ⟨"m3", 5000000002, "double", 3, ""⟩], none) :=
  ⟨record_metrics_shared_now 777 _ [] (by decide), by decide⟩

end ServerClaims
